import Mathlib

/-!
Verification of the listing identity and change-detection pipeline of the
swe-cron job scraper (src/base.py).

The development shallowly embeds the pure core of the program: selector
normalization, the relevance filter, per-batch deduplication, change
detection against the persisted store, date-based pruning, the JSON
snapshot serialization used by save_listings / load_listings, and the
exception behavior of the notification boundary.  Python strings are
modelled as Lean strings (sequences of Unicode code points, which is also
the Python representation); Python dicts built by the program are modelled
by the Posting structure, since every record the program constructs has
the fields site, title, url and optionally date, in that insertion order.
Fallible Python code is modelled with Option / Except, with an uncaught
exception corresponding to an Except.error escaping to the top level.
-/

/-! ## Python string primitives (ASCII model) -/

/-- Model of the Python whitespace test used by str.strip, restricted to the
ASCII whitespace characters (space, tab, newline, carriage return, vertical
tab, form feed). -/
def pyIsSpace (c : Char) : Bool :=
  c.toNat = 32 || c.toNat = 9 || c.toNat = 10 || c.toNat = 13 || c.toNat = 11 || c.toNat = 12

/-- Model of Python str.strip(): drop whitespace from both ends. -/
def pyStrip (s : List Char) : List Char :=
  ((s.dropWhile pyIsSpace).reverse.dropWhile pyIsSpace).reverse

/-- Model of Python str.lower() on one character, restricted to ASCII. -/
def pyLowerChar (c : Char) : Char :=
  if 65 ≤ c.toNat ∧ c.toNat ≤ 90 then Char.ofNat (c.toNat + 32) else c

/-- Model of Python str.lower(), restricted to ASCII case mapping. -/
def pyLower (s : List Char) : List Char := s.map pyLowerChar

/-- Helper for substring search: the first list is a leading segment of the
second. -/
def leadsWith : List Char → List Char → Bool
  | [], _ => true
  | _ :: _, [] => false
  | a :: as, b :: bs => if a = b then leadsWith as bs else false

/-- Model of the Python expression `needle in hay` on strings: contiguous
substring occurrence. -/
def hasSub (needle : List Char) : List Char → Bool
  | [] => leadsWith needle []
  | c :: rest => leadsWith needle (c :: rest) || hasSub needle rest

/-! ## Data model: postings and the identity key -/

/-- A scraped job posting, as built at src/base.py line 117
(`results.append(...)`): fields site, title, url, and optionally a date
added by main at line 312.  A url value of none models JSON null; a date
value of none models an absent date key. -/
structure Posting where
  site : String
  title : String
  url : Option String
  date : Option String
deriving DecidableEq

/-- The identity key type: (site, title, url). -/
abbrev JobKey := String × String × Option String

/-- The identity key of a posting, as computed at src/base.py lines 139
and 156: the tuple (site, title, url) read from the record. -/
def jobKey (j : Posting) : JobKey := (j.site, j.title, j.url)

/-! ## Selector normalization (src/base.py lines 29-38) -/

/-- The reserved character set at src/base.py line 35:
period, hash, colon, open bracket, greater-than, plus, tilde, comma,
asterisk, parentheses, double quote, single quote, equals. -/
def specialChars : List Char :=
  ['.', '#', ':', '[', '>', '+', '~', ',', '*', '(', ')', '"', Char.ofNat 39, '=']

/-- Translation of normalize_selector (src/base.py lines 29-38).  A Python
argument of None or the empty string is falsy, so both return None; then
the token is stripped, an empty strip result returns None, a token holding
a reserved character is returned as stripped, and otherwise a period is
prefixed. -/
def normalize_selector (tag : Option String) : Option String :=
  match tag with
  | none => none
  | some s =>
    if s = "" then none
    else
      let t := pyStrip s.toList
      if t = [] then none
      else if t.any (fun c => specialChars.contains c) then some (String.mk t)
      else some (String.mk ('.' :: t))

/-! ## Relevance filter (src/base.py lines 110-117) -/

/-- The per-candidate inclusion decision of scrape_sites
(src/base.py lines 110-112): an empty extracted title is skipped before
the keyword test; otherwise the candidate is kept when the lowercased
title holds one of the substrings intern, grad, early, or when the
lowercased site name is empty. -/
def include_candidate (site_name title : String) : Bool :=
  if title = "" then false
  else
    hasSub "intern".toList (pyLower title.toList)
      || hasSub "grad".toList (pyLower title.toList)
      || hasSub "early".toList (pyLower title.toList)
      || (pyLower site_name.toList).isEmpty

/-! ## Deduplication and change detection (src/base.py lines 135-164) -/

/-- Translation of dedupe_jobs (src/base.py lines 135-143): a fold over the
batch carrying the set of seen keys (modelled as a list used only through
membership) and the output list, appending a job only when its key is
unseen. -/
def dedupe_jobs (jobs : List Posting) : List Posting :=
  (jobs.foldl
    (fun st j =>
      if jobKey j ∈ st.1 then st
      else (jobKey j :: st.1, st.2 ++ [j]))
    (([] : List JobKey), ([] : List Posting))).2

/-- Translation of find_new_listings (src/base.py lines 153-164): first the
key set of the existing store is accumulated, then the current batch is
walked in order, keeping the jobs whose key is not in that set. -/
def find_new_listings (current existing : List Posting) : List Posting :=
  let existing_keys : List JobKey :=
    existing.foldl (fun s job => if jobKey job ∈ s then s else jobKey job :: s) []
  current.foldl
    (fun acc job => if jobKey job ∈ existing_keys then acc else acc ++ [job]) []

/-- Modelled from the spec: the deduplication contract stated in section 4.3,
in its own words.  Keep each posting and remove every later posting with an
equal identity key, preserving first-seen order.  Used only to compare
dedupe_jobs against the specification text. -/
def removeLaterDuplicates : List Posting → List Posting
  | [] => []
  | j :: rest =>
      j :: removeLaterDuplicates (rest.filter (fun j2 => decide (jobKey j2 ≠ jobKey j)))
termination_by l => l.length
decreasing_by
  simp only [List.length_cons]
  exact Nat.lt_succ_of_le (List.length_filter_le _ _)

/-! ## Dates (Python datetime.date model) -/

/-- A Python datetime.date value: a calendar date in the proleptic Gregorian
calendar. -/
structure PyDate where
  year : Nat
  month : Nat
  day : Nat
deriving DecidableEq

/-- Gregorian leap year test. -/
def isLeapYear (y : Nat) : Bool :=
  y % 4 = 0 && (y % 100 ≠ 0 || y % 400 = 0)

/-- Number of days in a month of a given year. -/
def daysInMonth (y m : Nat) : Nat :=
  if m = 2 then (if isLeapYear y then 29 else 28)
  else if m = 4 || m = 6 || m = 9 || m = 11 then 30
  else 31

/-- Validity of a date in the range Python datetime.date supports. -/
def PyDate.valid (d : PyDate) : Bool :=
  1 ≤ d.year && d.year ≤ 9999 && 1 ≤ d.month && d.month ≤ 12
    && 1 ≤ d.day && d.day ≤ daysInMonth d.year d.month

/-- Days in the years strictly before year y (proleptic Gregorian). -/
def daysBeforeYear (y : Nat) : Nat :=
  365 * (y - 1) + (y - 1) / 4 - (y - 1) / 100 + (y - 1) / 400

/-- Days in the months of year y strictly before month m. -/
def daysBeforeMonth (y m : Nat) : Nat :=
  (List.range (m - 1)).foldl (fun acc i => acc + daysInMonth y (i + 1)) 0

/-- Model of Python date.toordinal(): the ordinal of the date, with
0001-01-01 mapping to 1.  Comparison of Python date values agrees with
comparison of their ordinals, and subtracting a timedelta of n days
subtracts n from the ordinal, so pruning is modelled on ordinals. -/
def toOrdinal (d : PyDate) : Int :=
  ((daysBeforeYear d.year + daysBeforeMonth d.year d.month + d.day : Nat) : Int)

/-- Decimal digit character for n modulo 10. -/
def digitChar (n : Nat) : Char := Char.ofNat (48 + n % 10)

/-- Two-digit zero-padded decimal rendering (for n below 100). -/
def pad2 (n : Nat) : List Char := [digitChar (n / 10), digitChar n]

/-- Four-digit zero-padded decimal rendering (for n below 10000). -/
def pad4 (n : Nat) : List Char :=
  [digitChar (n / 1000), digitChar (n / 100), digitChar (n / 10), digitChar n]

/-- Model of Python date.isoformat(): YYYY-MM-DD. -/
def isoformat (d : PyDate) : String :=
  String.mk (pad4 d.year ++ '-' :: pad2 d.month ++ '-' :: pad2 d.day)

/-- Value of a decimal digit character. -/
def digitVal (c : Char) : Option Nat :=
  if 48 ≤ c.toNat ∧ c.toNat ≤ 57 then some (c.toNat - 48) else none

/-- Model of Python date.fromisoformat on the YYYY-MM-DD format: none models
the ValueError raised on any other input.  (Newer Python versions accept some
additional ISO-8601 spellings; the program only ever writes and reparses the
canonical ten-character form produced by date.isoformat.) -/
def date_fromisoformat (s : String) : Option PyDate :=
  match s.toList with
  | [y1, y2, y3, y4, s1, m1, m2, s2, d1, d2] =>
    if s1 = '-' ∧ s2 = '-' then
      match digitVal y1, digitVal y2, digitVal y3, digitVal y4,
          digitVal m1, digitVal m2, digitVal d1, digitVal d2 with
      | some a, some b, some c, some d, some e, some f, some g, some h =>
        let y := ((a * 10 + b) * 10 + c) * 10 + d
        let m := e * 10 + f
        let dd := g * 10 + h
        if 1 ≤ y ∧ 1 ≤ m ∧ m ≤ 12 ∧ 1 ≤ dd ∧ dd ≤ daysInMonth y m then
          some ⟨y, m, dd⟩
        else none
      | _, _, _, _, _, _, _, _ => none
    else none
  | _ => none

/-! ## Pruning and the store update (src/base.py lines 167-187 and 310-322) -/

/-- Translation of prune_old_listings (src/base.py lines 167-187).  The
ambient date.today() is passed explicitly.  A listing with a falsy date
value (absent key or empty string) is kept; a listing whose date does not
parse raises ValueError, which the source catches and keeps the listing;
otherwise the listing is kept exactly when its date is on or after the
cutoff, today minus max_age_days.  The source default for max_age_days is
60 and main always uses it. -/
def prune_old_listings (listings : List Posting) (today : PyDate)
    (max_age_days : Nat) : List Posting :=
  let cutoff : Int := toOrdinal today - (max_age_days : Int)
  listings.foldl
    (fun pruned listing =>
      match listing.date with
      | none => pruned ++ [listing]
      | some s =>
        if s = "" then pruned ++ [listing]
        else
          match date_fromisoformat s with
          | none => pruned ++ [listing]
          | some d => if cutoff ≤ toOrdinal d then pruned ++ [listing] else pruned)
    []

/-- Stamping of a newly found listing with the current date, as done by main
at src/base.py lines 310-312. -/
def stampDate (today : PyDate) (j : Posting) : Posting :=
  ⟨j.site, j.title, j.url, some (isoformat today)⟩

/-- The store update performed by main at src/base.py lines 310-322: stamp
each new listing with today, concatenate new listings before the existing
store, and prune (main uses the default retention of 60 days; the retention
is kept as a parameter here to match the spec signature). -/
def merge_and_prune (newListings existing : List Posting) (today : PyDate)
    (retention_days : Nat) : List Posting :=
  prune_old_listings (newListings.map (stampDate today) ++ existing) today retention_days

/-! ## Snapshot serialization (src/base.py lines 146-150 and 190-192)

The snapshot is written by json.dump(jobs, fh, indent=2, ensure_ascii=False)
and read back by json.load.  The serializer below reproduces the exact byte
output of json.dump for the record shapes the program builds (flat objects
with the keys site, title, url and optionally date, holding strings or
null).  The reader models json.load restricted to that snapshot grammar;
a parse failure models the json.JSONDecodeError that json.load raises on
malformed content.  Surrogate escapes and non-snapshot JSON shapes never
occur in program-written snapshots and are out of the model. -/

/-- Lowercase hexadecimal digit character, as emitted by the json encoder. -/
def hexDigitChar (n : Nat) : Char :=
  if n < 10 then Char.ofNat (48 + n) else Char.ofNat (87 + n)

/-- Escaping of one character inside a JSON string, as json.dump with
ensure_ascii=False performs it: quote and backslash get a backslash escape,
the control characters with short escapes use them, remaining control
characters use a four-digit unicode escape, and every other character is
emitted unchanged. -/
def escapeChar (c : Char) : List Char :=
  if c = '"' then [Char.ofNat 92, '"']
  else if c = Char.ofNat 92 then [Char.ofNat 92, Char.ofNat 92]
  else if c = Char.ofNat 10 then [Char.ofNat 92, 'n']
  else if c = Char.ofNat 13 then [Char.ofNat 92, 'r']
  else if c = Char.ofNat 9 then [Char.ofNat 92, 't']
  else if c = Char.ofNat 8 then [Char.ofNat 92, 'b']
  else if c = Char.ofNat 12 then [Char.ofNat 92, 'f']
  else if c.toNat < 32 then
    [Char.ofNat 92, 'u', '0', '0', hexDigitChar (c.toNat / 16), hexDigitChar (c.toNat % 16)]
  else [c]

/-- Escaping of a whole string body. -/
def escapeStr : List Char → List Char
  | [] => []
  | c :: rest => escapeChar c ++ escapeStr rest

/-- A JSON string literal: quote, escaped body, quote. -/
def jstr (s : String) : List Char := '"' :: (escapeStr s.toList ++ ['"'])

/-- The json.dump rendering of one posting object at indent level one
(indent=2): keys in the insertion order site, title, url and optionally
date, with null for an absent url. -/
def dumpPosting (p : Posting) : List Char :=
  "\x7b\n    \"site\": ".toList ++ jstr p.site
    ++ ",\n    \"title\": ".toList ++ jstr p.title
    ++ ",\n    \"url\": ".toList
    ++ (match p.url with
        | none => "null".toList
        | some u => jstr u)
    ++ (match p.date with
        | none => []
        | some d => ",\n    \"date\": ".toList ++ jstr d)
    ++ "\n  \x7d".toList

/-- The comma-separated item list of the snapshot array. -/
def dumpItems : List Posting → List Char
  | [] => []
  | [p] => dumpPosting p
  | p :: rest => dumpPosting p ++ ",\n  ".toList ++ dumpItems rest

/-- Translation of save_listings (src/base.py lines 190-192): the exact file
content json.dump(jobs, fh, indent=2, ensure_ascii=False) writes for a list
of postings. -/
def save_listings (jobs : List Posting) : String :=
  match jobs with
  | [] => "[]"
  | _ :: _ => String.mk ("[\n  ".toList ++ dumpItems jobs ++ "\n]".toList)

/-- Literal matcher: consume an expected literal from the front of the
input, or fail. -/
def stripLit : List Char → List Char → Option (List Char)
  | [], r => some r
  | _ :: _, [] => none
  | a :: as, b :: bs => if a = b then stripLit as bs else none

/-- Decoding of a single-character JSON escape code. -/
def decodeEscChar (e : Char) : Option Char :=
  if e = '"' then some '"'
  else if e = Char.ofNat 92 then some (Char.ofNat 92)
  else if e = Char.ofNat 47 then some (Char.ofNat 47)
  else if e = 'n' then some (Char.ofNat 10)
  else if e = 'r' then some (Char.ofNat 13)
  else if e = 't' then some (Char.ofNat 9)
  else if e = 'b' then some (Char.ofNat 8)
  else if e = 'f' then some (Char.ofNat 12)
  else none

/-- Value of a hexadecimal digit character. -/
def unhex (c : Char) : Option Nat :=
  if 48 ≤ c.toNat ∧ c.toNat ≤ 57 then some (c.toNat - 48)
  else if 97 ≤ c.toNat ∧ c.toNat ≤ 102 then some (c.toNat - 87)
  else if 65 ≤ c.toNat ∧ c.toNat ≤ 70 then some (c.toNat - 55)
  else none

/-- JSON string body reader, starting after the opening quote: returns the
decoded body and the input after the closing quote.  Unescaped control
characters are rejected, as json.load does in strict mode. -/
def parseJString : List Char → Option (List Char × List Char)
  | [] => none
  | c :: rest =>
    if c = '"' then some ([], rest)
    else if c = Char.ofNat 92 then
      match rest with
      | [] => none
      | e :: rest2 =>
        if e = 'u' then
          match rest2 with
          | h1 :: h2 :: h3 :: h4 :: rest3 =>
            match unhex h1, unhex h2, unhex h3, unhex h4 with
            | some a, some b, some c2, some d =>
              if Nat.isValidChar (((a * 16 + b) * 16 + c2) * 16 + d) then
                (parseJString rest3).map
                  (fun pr => (Char.ofNat (((a * 16 + b) * 16 + c2) * 16 + d) :: pr.1, pr.2))
              else none
            | _, _, _, _ => none
          | _ => none
        else
          match decodeEscChar e with
          | none => none
          | some ch => (parseJString rest2).map (fun pr => (ch :: pr.1, pr.2))
    else
      if c.toNat < 32 then none
      else (parseJString rest).map (fun pr => (c :: pr.1, pr.2))

/-- The url value of a snapshot record: null or a JSON string. -/
def parseUrlVal (l : List Char) : Option (Option String × List Char) :=
  match stripLit "null".toList l with
  | some r => some (none, r)
  | none =>
    match l with
    | [] => none
    | c :: rest =>
      if c = '"' then (parseJString rest).map (fun pr => (some (String.mk pr.1), pr.2))
      else none

/-- Reader for one snapshot posting object, in the exact layout dumpPosting
emits; returns the posting and the input after the closing brace. -/
def parsePosting (l : List Char) : Option (Posting × List Char) :=
  match stripLit "\x7b\n    \"site\": \"".toList l with
  | none => none
  | some r1 =>
    match parseJString r1 with
    | none => none
    | some (siteC, r2) =>
      match stripLit ",\n    \"title\": \"".toList r2 with
      | none => none
      | some r3 =>
        match parseJString r3 with
        | none => none
        | some (titleC, r4) =>
          match stripLit ",\n    \"url\": ".toList r4 with
          | none => none
          | some r5 =>
            match parseUrlVal r5 with
            | none => none
            | some (urlV, r6) =>
              match stripLit ",\n    \"date\": \"".toList r6 with
              | some r7 =>
                match parseJString r7 with
                | none => none
                | some (dateC, r8) =>
                  match stripLit "\n  \x7d".toList r8 with
                  | none => none
                  | some r9 =>
                    some (⟨String.mk siteC, String.mk titleC, urlV, some (String.mk dateC)⟩, r9)
              | none =>
                match stripLit "\n  \x7d".toList r6 with
                | none => none
                | some r7 => some (⟨String.mk siteC, String.mk titleC, urlV, none⟩, r7)

/-- Consuming a literal never lengthens the input. -/
theorem stripLit_length : ∀ lit l r, stripLit lit l = some r → r.length ≤ l.length := by
  intro lit
  induction lit with
  | nil =>
    intro l r h
    simp [stripLit] at h
    simp [h]
  | cons a as ih =>
    intro l r h
    cases l with
    | nil => simp [stripLit] at h
    | cons b bs =>
      rw [stripLit] at h
      by_cases hab : a = b
      · simp only [hab, if_true] at h
        have := ih bs r h
        simp only [List.length_cons]
        omega
      · simp [hab] at h

/-- Consuming a nonempty literal strictly shortens the input. -/
theorem stripLit_length_lt : ∀ a as l r, stripLit (a :: as) l = some r → r.length < l.length := by
  intro a as l r h
  cases l with
  | nil => simp [stripLit] at h
  | cons b bs =>
    rw [stripLit] at h
    by_cases hab : a = b
    · simp only [hab, if_true] at h
      have := stripLit_length as bs r h
      simp only [List.length_cons]
      omega
    · simp [hab] at h

/-- Reading a JSON string body strictly shortens the input. -/
theorem parseJString_length : ∀ l s r, parseJString l = some (s, r) → r.length < l.length := by
  intro l
  induction l using parseJString.induct with
  | _ =>
    intro s r h
    rw [parseJString.eq_def] at h
    simp [*, Option.map_eq_some'] at h
    try first
    | (obtain ⟨a, hp, rfl⟩ := h
       rename_i ih
       have hr := ih _ _ hp
       simp only [List.length_cons]
       omega)
    | (obtain ⟨rfl, rfl⟩ := h
       simp)

/-- Reading a url value strictly shortens the input. -/
theorem parseUrlVal_length : ∀ l v r, parseUrlVal l = some (v, r) → r.length < l.length := by
  intro l v r h
  unfold parseUrlVal at h
  cases h1 : stripLit "null".toList l with
  | some r1 =>
    simp only [h1] at h
    simp at h
    obtain ⟨_, rfl⟩ := h
    exact stripLit_length_lt _ _ _ _ h1
  | none =>
    simp only [h1] at h
    cases l with
    | nil => simp at h
    | cons c rest =>
      simp only at h
      by_cases hc : c = '"'
      · simp only [hc, if_true, Option.map_eq_some'] at h
        obtain ⟨⟨s1, r1⟩, hp, he⟩ := h
        obtain ⟨_, rfl⟩ := Prod.mk.injEq .. ▸ he
        have := parseJString_length _ _ _ hp
        simp only [List.length_cons]
        omega
      · simp [hc] at h

/-- Reading one posting object strictly shortens the input. -/
theorem parsePosting_length : ∀ l p r, parsePosting l = some (p, r) → r.length < l.length := by
  intro l p r h
  unfold parsePosting at h
  cases h1 : stripLit "\x7b\n    \"site\": \"".toList l with
  | none => simp only [h1] at h; simp at h
  | some r1 =>
  simp only [h1] at h
  have hl1 := stripLit_length_lt _ _ _ _ h1
  cases h2 : parseJString r1 with
  | none => simp only [h2] at h; simp at h
  | some pr2 =>
  obtain ⟨siteC, r2⟩ := pr2
  simp only [h2] at h
  have hl2 := parseJString_length _ _ _ h2
  cases h3 : stripLit ",\n    \"title\": \"".toList r2 with
  | none => simp only [h3] at h; simp at h
  | some r3 =>
  simp only [h3] at h
  have hl3 := stripLit_length_lt _ _ _ _ h3
  cases h4 : parseJString r3 with
  | none => simp only [h4] at h; simp at h
  | some pr4 =>
  obtain ⟨titleC, r4⟩ := pr4
  simp only [h4] at h
  have hl4 := parseJString_length _ _ _ h4
  cases h5 : stripLit ",\n    \"url\": ".toList r4 with
  | none => simp only [h5] at h; simp at h
  | some r5 =>
  simp only [h5] at h
  have hl5 := stripLit_length_lt _ _ _ _ h5
  cases h6 : parseUrlVal r5 with
  | none => simp only [h6] at h; simp at h
  | some pr6 =>
  obtain ⟨urlV, r6⟩ := pr6
  simp only [h6] at h
  have hl6 := parseUrlVal_length _ _ _ h6
  cases h7 : stripLit ",\n    \"date\": \"".toList r6 with
  | some r7 =>
    simp only [h7] at h
    have hl7 := stripLit_length_lt _ _ _ _ h7
    cases h8 : parseJString r7 with
    | none => simp only [h8] at h; simp at h
    | some pr8 =>
    obtain ⟨dateC, r8⟩ := pr8
    simp only [h8] at h
    have hl8 := parseJString_length _ _ _ h8
    cases h9 : stripLit "\n  \x7d".toList r8 with
    | none => simp only [h9] at h; simp at h
    | some r9 =>
    simp only [h9] at h
    have hl9 := stripLit_length_lt _ _ _ _ h9
    simp at h
    obtain ⟨_, rfl⟩ := h
    omega
  | none =>
    simp only [h7] at h
    cases h8 : stripLit "\n  \x7d".toList r6 with
    | none => simp only [h8] at h; simp at h
    | some r7 =>
    simp only [h8] at h
    have hl8 := stripLit_length_lt _ _ _ _ h8
    simp at h
    obtain ⟨_, rfl⟩ := h
    omega

/-- Reader for the comma-separated items of a nonempty snapshot array,
consuming the closing bracket and requiring the end of the content, in the
exact layout save_listings emits. -/
def parseItems (l : List Char) : Option (List Posting) :=
  match h1 : parsePosting l with
  | none => none
  | some (p, rest) =>
    match h2 : stripLit ",\n  ".toList rest with
    | some rest2 => (parseItems rest2).map (fun ps => p :: ps)
    | none =>
      match stripLit "\n]".toList rest with
      | some [] => some [p]
      | _ => none
termination_by l.length
decreasing_by
  have hp := parsePosting_length _ _ _ h1
  have hs := stripLit_length _ _ _ h2
  omega

/-- Model of json.load (src/base.py line 150) on snapshot content,
restricted to the snapshot grammar save_listings writes: an empty array or
a nonempty indented array of flat posting records.  A result of none models
the json.JSONDecodeError raised on malformed content. -/
def parseListings (s : String) : Option (List Posting) :=
  let l := s.toList
  if l = "[]".toList then some []
  else
    match stripLit "[\n  ".toList l with
    | none => none
    | some r => parseItems r

/-! ## Python exceptions and the persisted snapshot file -/

/-- The Python exceptions the modelled code can raise or catch.  The
requestException constructor covers the requests.exceptions.RequestException
class, whose subclasses include ConnectionError, Timeout, HTTPError and,
in the requests library shipped since version 2.27, JSONDecodeError. -/
inductive PyExn where
  | jsonDecodeError (detail : String)
  | requestException (kind : String) (detail : String)
deriving DecidableEq

/-- State of the listings.json snapshot file on disk. -/
inductive SnapshotFile where
  | absent
  | present (content : String)
deriving DecidableEq

/-- Translation of load_listings (src/base.py lines 146-150): an absent file
returns the empty list; otherwise json.load parses the content, and a parse
failure raises json.JSONDecodeError, which no caller catches. -/
def load_listings : SnapshotFile → Except PyExn (List Posting)
  | .absent => .ok []
  | .present c =>
    match parseListings c with
    | some l => .ok l
    | none => .error (.jsonDecodeError c)

/-- Process exit code of a run whose load_listings call produced the given
result: an uncaught exception makes the interpreter print the traceback and
exit with code 1, while a normal load continues with code 0 here. -/
def load_phase_exit_code (f : SnapshotFile) : Nat :=
  match load_listings f with
  | .ok _ => 0
  | .error _ => 1

/-! ## Notification boundary (src/base.py lines 195-229 and 318-322) -/

/-- Outcome of the single requests.post call inside send_pushover: either
the call itself raises (network failure, timeout), or it returns a response
with a success flag (raise_for_status raises HTTPError on failure), a flag
telling whether the body is valid JSON (response.json() raises
JSONDecodeError otherwise), and the body text. -/
inductive TransportResult where
  | postRaised (detail : String)
  | response (statusOk : Bool) (validJson : Bool) (body : String)
deriving DecidableEq

/-- Membership test for the except clause at src/base.py line 220:
whether an exception is an instance of requests.exceptions.RequestException. -/
def isRequestException : PyExn → Bool
  | .requestException _ _ => true
  | _ => false

/-- The try block of send_pushover (src/base.py lines 213-219): post, decode
the response body, raise_for_status, return True. -/
def send_pushover_try : TransportResult → Except PyExn Bool
  | .postRaised d => .error (.requestException "RequestException" d)
  | .response statusOk validJson body =>
    if validJson = false then .error (.requestException "JSONDecodeError" body)
    else if statusOk = false then .error (.requestException "HTTPError" body)
    else .ok true

/-- Translation of send_pushover (src/base.py lines 195-229): a missing
requests library returns False after a log line; otherwise the try block
runs and a RequestException is caught, logged and turned into False. -/
def send_pushover (hasRequestsLib : Bool) (tr : TransportResult) : Except PyExn Bool :=
  if hasRequestsLib = false then .ok false
  else
    match send_pushover_try tr with
    | .ok b => .ok b
    | .error e => if isRequestException e then .ok false else .error e

/-- The write phase of main (src/base.py lines 303-322): diff the deduped
batch against the store; when new listings exist, notify (through
send_pushover) and then merge, prune with the default 60-day retention, and
save.  The returned value is the saved store content (none when nothing new
was found and the store is left untouched). -/
def write_phase (unique existing : List Posting) (today : PyDate)
    (hasRequestsLib : Bool) (tr : TransportResult) :
    Except PyExn (Option (List Posting)) :=
  let newListings := find_new_listings unique existing
  if newListings.isEmpty then .ok none
  else
    match send_pushover hasRequestsLib tr with
    | .error e => .error e
    | .ok _ => .ok (some (merge_and_prune newListings existing today 60))

/-! ## List lemmas about the fold loops -/

/-- A fold that appends the elements satisfying p builds the filter. -/
theorem foldl_append_eq_filter {α : Type} (p : α → Bool) :
    ∀ (l acc : List α),
      l.foldl (fun acc x => if p x then acc ++ [x] else acc) acc = acc ++ l.filter p := by
  intro l
  induction l with
  | nil => intro acc; simp
  | cons x xs ih =>
    intro acc
    by_cases h : p x
    · simp [h, List.filter_cons, ih, List.append_assoc]
    · simp [h, List.filter_cons, ih]

/-- A fold that skips the elements satisfying q builds the filter of the
complement. -/
theorem foldl_skip_eq_filter {α : Type} (q : α → Prop) [DecidablePred q] :
    ∀ (l acc : List α),
      l.foldl (fun acc x => if q x then acc else acc ++ [x]) acc
        = acc ++ l.filter (fun x => decide ¬ q x) := by
  intro l acc
  have : (fun (acc : List α) x => if q x then acc else acc ++ [x])
      = (fun acc x => if (decide ¬ q x) then acc ++ [x] else acc) := by
    funext acc x
    by_cases h : q x <;> simp [h]
  rw [this, foldl_append_eq_filter]

/-- Membership in the key set accumulated by the loop at src/base.py
lines 154-157. -/
theorem mem_keyset_foldl :
    ∀ (l : List Posting) (s : List JobKey) (k : JobKey),
      (k ∈ l.foldl (fun s job => if jobKey job ∈ s then s else jobKey job :: s) s)
        ↔ k ∈ s ∨ k ∈ l.map jobKey := by
  intro l
  induction l with
  | nil => intro s k; simp
  | cons j js ih =>
    intro s k
    by_cases h : jobKey j ∈ s
    · rw [List.foldl_cons, if_pos h, ih]
      simp only [List.map_cons, List.mem_cons]
      constructor
      · rintro (hs | hm)
        · exact Or.inl hs
        · exact Or.inr (Or.inr hm)
      · rintro (hs | rfl | hm)
        · exact Or.inl hs
        · exact Or.inl h
        · exact Or.inr hm
    · rw [List.foldl_cons, if_neg h, ih]
      simp only [List.mem_cons, List.map_cons]
      tauto

/-- The change detector is the filter of the current batch by key absence
from the existing store. -/
theorem find_new_eq_filter (current existing : List Posting) :
    find_new_listings current existing
      = current.filter (fun j => decide (jobKey j ∉ existing.map jobKey)) := by
  unfold find_new_listings
  rw [foldl_skip_eq_filter]
  rw [List.nil_append]
  apply List.filter_congr
  intro j _
  simp [mem_keyset_foldl]

/-- Structural companion of dedupe_jobs: the fold of dedupe_jobs with an
arbitrary starting seen set, written as plain recursion. -/
def dedupeAux : List JobKey → List Posting → List Posting
  | _, [] => []
  | seen, j :: rest =>
    if jobKey j ∈ seen then dedupeAux seen rest
    else j :: dedupeAux (jobKey j :: seen) rest

/-- The fold inside dedupe_jobs computes dedupeAux. -/
theorem dedupe_foldl :
    ∀ (l : List Posting) (seen : List JobKey) (acc : List Posting),
      (l.foldl
        (fun st j => if jobKey j ∈ st.1 then st else (jobKey j :: st.1, st.2 ++ [j]))
        (seen, acc)).2
        = acc ++ dedupeAux seen l := by
  intro l
  induction l with
  | nil => intro seen acc; simp [dedupeAux]
  | cons j js ih =>
    intro seen acc
    by_cases h : jobKey j ∈ seen
    · simp only [List.foldl_cons, if_pos h, dedupeAux, ih]
    · simp only [List.foldl_cons, if_neg h, dedupeAux, ih, List.append_assoc,
        List.singleton_append]

/-- dedupe_jobs unfolded to the recursive form. -/
theorem dedupe_jobs_eq_aux (jobs : List Posting) :
    dedupe_jobs jobs = dedupeAux [] jobs := by
  unfold dedupe_jobs
  rw [dedupe_foldl jobs [] []]
  simp

/-- The deduplicated batch is a sublist of the input (order preserved). -/
theorem dedupeAux_sublist :
    ∀ (l : List Posting) (seen : List JobKey), List.Sublist (dedupeAux seen l) l := by
  intro l
  induction l with
  | nil => intro seen; simp [dedupeAux]
  | cons j js ih =>
    intro seen
    rw [dedupeAux]
    by_cases h : jobKey j ∈ seen
    · rw [if_pos h]
      exact List.Sublist.cons j (ih seen)
    · rw [if_neg h]
      exact List.Sublist.cons₂ j (ih (jobKey j :: seen))

/-- The keys of the deduplicated batch avoid the seen set and repeat
nothing. -/
theorem dedupeAux_nodup :
    ∀ (l : List Posting) (seen : List JobKey),
      ((dedupeAux seen l).map jobKey).Nodup
        ∧ ∀ k ∈ (dedupeAux seen l).map jobKey, k ∉ seen := by
  intro l
  induction l with
  | nil => intro seen; simp [dedupeAux]
  | cons j js ih =>
    intro seen
    rw [dedupeAux]
    by_cases h : jobKey j ∈ seen
    · rw [if_pos h]
      exact ih seen
    · rw [if_neg h]
      obtain ⟨ihn, ihs⟩ := ih (jobKey j :: seen)
      constructor
      · simp only [List.map_cons, List.nodup_cons]
        refine ⟨fun hmem => ?_, ihn⟩
        exact (ihs _ hmem) (List.mem_cons_self _ _)
      · intro k hk
        simp only [List.map_cons, List.mem_cons] at hk
        rcases hk with rfl | hk
        · exact h
        · intro hks
          exact (ihs k hk) (List.mem_cons_of_mem _ hks)

/-- Key membership is preserved by deduplication, relative to the seen set. -/
theorem dedupeAux_mem_keys :
    ∀ (l : List Posting) (seen : List JobKey) (k : JobKey),
      k ∈ (dedupeAux seen l).map jobKey ↔ k ∈ l.map jobKey ∧ k ∉ seen := by
  intro l
  induction l with
  | nil => intro seen k; simp [dedupeAux]
  | cons j js ih =>
    intro seen k
    rw [dedupeAux]
    by_cases h : jobKey j ∈ seen
    · rw [if_pos h, ih]
      simp only [List.map_cons, List.mem_cons]
      constructor
      · tauto
      · rintro ⟨rfl | hm, hs⟩
        · exact absurd h hs
        · exact ⟨hm, hs⟩
    · rw [if_neg h]
      simp only [List.map_cons, List.mem_cons, ih, List.mem_cons]
      by_cases hkj : k = jobKey j
      · subst hkj; tauto
      · tauto

/-- Unfolding lemma for removeLaterDuplicates on a nonempty list. -/
theorem removeLater_cons (j : Posting) (rest : List Posting) :
    removeLaterDuplicates (j :: rest)
      = j :: removeLaterDuplicates (rest.filter (fun j2 => decide (jobKey j2 ≠ jobKey j))) := by
  rw [removeLaterDuplicates.eq_def]

/-- dedupeAux agrees with the specification text: it keeps the first
occurrence of each unseen key and removes the later duplicates. -/
theorem dedupeAux_eq_removeLater :
    ∀ (l : List Posting) (seen : List JobKey),
      dedupeAux seen l
        = removeLaterDuplicates (l.filter (fun j => decide (jobKey j ∉ seen))) := by
  intro l
  induction l with
  | nil => intro seen; simp [dedupeAux, removeLaterDuplicates]
  | cons j js ih =>
    intro seen
    rw [dedupeAux]
    by_cases h : jobKey j ∈ seen
    · rw [if_pos h, List.filter_cons]
      have hd : decide (jobKey j ∉ seen) = false := by simp [h]
      rw [hd]
      simp only [Bool.false_eq_true, if_false]
      exact ih seen
    · rw [if_neg h, List.filter_cons]
      have hd : decide (jobKey j ∉ seen) = true := by simp [h]
      rw [hd]
      simp only [if_true]
      rw [removeLater_cons, ih (jobKey j :: seen), List.filter_filter]
      congr 1
      congr 1
      apply List.filter_congr
      intro x _
      by_cases h1 : jobKey x = jobKey j <;> by_cases h2 : jobKey x ∈ seen <;>
        simp [List.mem_cons, h1, h2]

/-! ## Pruning characterization and the date round trip -/

/-- The retention decision of prune_old_listings for one listing: kept when
the date is absent or falsy, kept when the date does not parse, kept when
the parsed date is on or after the cutoff. -/
def keepListing (today : PyDate) (max_age_days : Nat) (listing : Posting) : Bool :=
  match listing.date with
  | none => true
  | some s =>
    if s = "" then true
    else
      match date_fromisoformat s with
      | none => true
      | some d => decide (toOrdinal today - (max_age_days : Int) ≤ toOrdinal d)

/-- prune_old_listings is the filter by the retention decision. -/
theorem prune_eq_filter (listings : List Posting) (today : PyDate) (days : Nat) :
    prune_old_listings listings today days = listings.filter (keepListing today days) := by
  unfold prune_old_listings
  dsimp only
  have hbody : (fun (pruned : List Posting) (listing : Posting) =>
      match listing.date with
      | none => pruned ++ [listing]
      | some s =>
        if s = "" then pruned ++ [listing]
        else
          match date_fromisoformat s with
          | none => pruned ++ [listing]
          | some d =>
            if toOrdinal today - (days : Int) ≤ toOrdinal d then pruned ++ [listing]
            else pruned)
      = (fun pruned listing =>
          if keepListing today days listing then pruned ++ [listing] else pruned) := by
    funext pruned listing
    cases hd : listing.date with
    | none => simp [keepListing, hd]
    | some s =>
      by_cases hs : s = ""
      · simp [keepListing, hd, hs]
      · cases hp : date_fromisoformat s with
        | none => simp [keepListing, hd, hs, hp]
        | some d =>
          by_cases hc : toOrdinal today - (days : Int) ≤ toOrdinal d
          · simp [keepListing, hd, hs, hp, hc]
          · simp [keepListing, hd, hs, hp, hc]
  rw [hbody, foldl_append_eq_filter]
  simp

/-- Reading back a character built from a valid code point. -/
theorem toNat_ofNat_valid (n : Nat) (h : n.isValidChar) : (Char.ofNat n).toNat = n := by
  unfold Char.ofNat
  rw [dif_pos h]
  rfl

/-- Reading back a decimal digit character. -/
theorem digitVal_digitChar (n : Nat) : digitVal (digitChar n) = some (n % 10) := by
  have hv : Nat.isValidChar (48 + n % 10) := Or.inl (by omega)
  unfold digitVal digitChar
  rw [toNat_ofNat_valid _ hv]
  rw [if_pos (by omega)]
  congr 1
  omega

/-- Recomposition of a number below 10000 from its four decimal digits. -/
theorem digits4_recompose (y : Nat) (h : y ≤ 9999) :
    ((y / 1000 % 10 * 10 + y / 100 % 10) * 10 + y / 10 % 10) * 10 + y % 10 = y := by
  omega

/-- Recomposition of a number below 100 from its two decimal digits. -/
theorem digits2_recompose (m : Nat) (h : m ≤ 99) :
    m / 10 % 10 * 10 + m % 10 = m := by
  omega

/-- A date within the supported range survives the isoformat round trip:
parsing the stamped string recovers the date. -/
theorem fromisoformat_isoformat (d : PyDate) (h : d.valid = true) :
    date_fromisoformat (isoformat d) = some d := by
  obtain ⟨y, m, dd⟩ := d
  unfold PyDate.valid at h
  simp only [Bool.and_eq_true, decide_eq_true_eq] at h
  obtain ⟨⟨⟨⟨⟨h1, h2⟩, h3⟩, h4⟩, h5⟩, h6⟩ := h
  have hlist : (isoformat ⟨y, m, dd⟩).toList
      = [digitChar (y / 1000), digitChar (y / 100), digitChar (y / 10), digitChar y, '-',
         digitChar (m / 10), digitChar m, '-', digitChar (dd / 10), digitChar dd] := by
    simp [isoformat, pad4, pad2]
  unfold date_fromisoformat
  rw [hlist]
  simp only [digitVal_digitChar]
  rw [if_pos (And.intro trivial trivial)]
  have hmle : m ≤ 99 := by omega
  have hddle : dd ≤ 99 := by
    have : daysInMonth y m ≤ 31 := by
      unfold daysInMonth
      split
      · split <;> omega
      · split <;> omega
    omega
  have hy := digits4_recompose y h2
  have hm := digits2_recompose m hmle
  have hdd := digits2_recompose dd hddle
  simp only [hy, hm, hdd]
  rw [if_pos]
  exact ⟨h1, h3, h4, h5, h6⟩

/-! ## Snapshot round trip: string layer -/

/-- Consuming a literal from itself plus a remainder leaves the remainder. -/
theorem stripLit_append : ∀ (lit r : List Char), stripLit lit (lit ++ r) = some r := by
  intro lit
  induction lit with
  | nil => intro r; simp [stripLit]
  | cons a as ih => intro r; simp [stripLit, ih]

/-- Reading back a hexadecimal digit character. -/
theorem unhex_hexDigitChar (m : Nat) (h : m < 16) : unhex (hexDigitChar m) = some m := by
  interval_cases m <;> decide

/-- Reading back the zero digit. -/
theorem unhex_zero : unhex '0' = some 0 := by decide

/-- The escaped body of a string followed by a closing quote parses back to
the original body, leaving the remainder untouched. -/
theorem parseJString_escape :
    ∀ (s r : List Char), parseJString (escapeStr s ++ '"' :: r) = some (s, r) := by
  intro s
  induction s with
  | nil =>
    intro r
    rw [escapeStr, List.nil_append, parseJString.eq_def]
    simp
  | cons c cs ih =>
    intro r
    rw [escapeStr, List.append_assoc]
    by_cases h1 : c = '"'
    · subst h1
      have he : escapeChar '"' = [Char.ofNat 92, '"'] := by decide
      rw [he, List.cons_append, List.cons_append, List.nil_append, parseJString.eq_def]
      simp +decide [decodeEscChar, ih]
    · by_cases h2 : c = Char.ofNat 92
      · subst h2
        have he : escapeChar (Char.ofNat 92) = [Char.ofNat 92, Char.ofNat 92] := by decide
        rw [he, List.cons_append, List.cons_append, List.nil_append, parseJString.eq_def]
        simp +decide [decodeEscChar, ih]
      · by_cases h3 : c = Char.ofNat 10
        · subst h3
          have he : escapeChar (Char.ofNat 10) = [Char.ofNat 92, 'n'] := by decide
          rw [he, List.cons_append, List.cons_append, List.nil_append, parseJString.eq_def]
          simp +decide [decodeEscChar, ih]
        · by_cases h4 : c = Char.ofNat 13
          · subst h4
            have he : escapeChar (Char.ofNat 13) = [Char.ofNat 92, 'r'] := by decide
            rw [he, List.cons_append, List.cons_append, List.nil_append, parseJString.eq_def]
            simp +decide [decodeEscChar, ih]
          · by_cases h5 : c = Char.ofNat 9
            · subst h5
              have he : escapeChar (Char.ofNat 9) = [Char.ofNat 92, 't'] := by decide
              rw [he, List.cons_append, List.cons_append, List.nil_append, parseJString.eq_def]
              simp +decide [decodeEscChar, ih]
            · by_cases h6 : c = Char.ofNat 8
              · subst h6
                have he : escapeChar (Char.ofNat 8) = [Char.ofNat 92, 'b'] := by decide
                rw [he, List.cons_append, List.cons_append, List.nil_append,
                  parseJString.eq_def]
                simp +decide [decodeEscChar, ih]
              · by_cases h7 : c = Char.ofNat 12
                · subst h7
                  have he : escapeChar (Char.ofNat 12) = [Char.ofNat 92, 'f'] := by decide
                  rw [he, List.cons_append, List.cons_append, List.nil_append,
                    parseJString.eq_def]
                  simp +decide [decodeEscChar, ih]
                · by_cases h8 : c.toNat < 32
                  · have he : escapeChar c
                        = [Char.ofNat 92, 'u', '0', '0',
                           hexDigitChar (c.toNat / 16), hexDigitChar (c.toNat % 16)] := by
                      unfold escapeChar
                      rw [if_neg h1, if_neg h2, if_neg h3, if_neg h4, if_neg h5, if_neg h6,
                        if_neg h7, if_pos h8]
                    rw [he]
                    have hhi : c.toNat / 16 < 16 := by omega
                    have hlo : c.toNat % 16 < 16 := by omega
                    have hval : ((0 * 16 + 0) * 16 + c.toNat / 16) * 16 + c.toNat % 16
                        = c.toNat := by omega
                    have hvc : Nat.isValidChar c.toNat := Or.inl (by omega)
                    simp only [List.cons_append, List.nil_append]
                    rw [parseJString.eq_def]
                    simp +decide [unhex_zero, unhex_hexDigitChar _ hhi,
                      unhex_hexDigitChar _ hlo, hval, hvc, ih]
                    have hv2 : c.toNat / 16 * 16 + c.toNat % 16 = c.toNat := by omega
                    rw [hv2]
                    exact ⟨hvc, Char.ofNat_toNat c⟩
                  · have he : escapeChar c = [c] := by
                      unfold escapeChar
                      rw [if_neg h1, if_neg h2, if_neg h3, if_neg h4, if_neg h5, if_neg h6,
                        if_neg h7, if_neg h8]
                    rw [he, List.singleton_append, parseJString.eq_def]
                    simp [h1, h2, h8, ih]

/-- Splitting the site literal at its trailing quote. -/
theorem lit_site_split :
    "\x7b\n    \"site\": \"".toList = "\x7b\n    \"site\": ".toList ++ ['"'] := by rfl

/-- Splitting the title literal at its trailing quote. -/
theorem lit_title_split :
    ",\n    \"title\": \"".toList = ",\n    \"title\": ".toList ++ ['"'] := by rfl

/-- Splitting the date literal at its trailing quote. -/
theorem lit_date_split :
    ",\n    \"date\": \"".toList = ",\n    \"date\": ".toList ++ ['"'] := by rfl

/-- One dumped posting object parses back to itself, leaving the remainder
of the input untouched. -/
theorem parsePosting_dump (p : Posting) (rest : List Char) :
    parsePosting (dumpPosting p ++ rest) = some (p, rest) := by
  obtain ⟨site, title, url, date⟩ := p
  cases url with
  | none =>
    cases date with
    | none =>
      have hsplit : dumpPosting ⟨site, title, none, none⟩ ++ rest
          = "\x7b\n    \"site\": \"".toList
            ++ (escapeStr site.toList ++ '"' ::
              (",\n    \"title\": \"".toList
                ++ (escapeStr title.toList ++ '"' ::
                  (",\n    \"url\": ".toList
                    ++ ("null".toList
                      ++ ("\n  \x7d".toList ++ rest)))))) := by
        rw [lit_site_split, lit_title_split]
        simp [dumpPosting, jstr, List.append_assoc]
      rw [hsplit]
      unfold parsePosting
      rw [stripLit_append]
      dsimp only
      rw [parseJString_escape]
      dsimp only
      rw [stripLit_append]
      dsimp only
      rw [parseJString_escape]
      dsimp only
      rw [stripLit_append]
      dsimp only
      unfold parseUrlVal
      rw [stripLit_append]
      dsimp only
      have hdate : stripLit ",\n    \"date\": \"".toList ("\n  \x7d".toList ++ rest)
          = none := by rfl
      rw [hdate]
      dsimp only
      rw [stripLit_append]
      dsimp only
      rfl
    | some d =>
      have hsplit : dumpPosting ⟨site, title, none, some d⟩ ++ rest
          = "\x7b\n    \"site\": \"".toList
            ++ (escapeStr site.toList ++ '"' ::
              (",\n    \"title\": \"".toList
                ++ (escapeStr title.toList ++ '"' ::
                  (",\n    \"url\": ".toList
                    ++ ("null".toList
                      ++ (",\n    \"date\": \"".toList
                        ++ (escapeStr d.toList ++ '"' ::
                          ("\n  \x7d".toList ++ rest)))))))) := by
        rw [lit_site_split, lit_title_split, lit_date_split]
        simp [dumpPosting, jstr, List.append_assoc]
      rw [hsplit]
      unfold parsePosting
      rw [stripLit_append]
      dsimp only
      rw [parseJString_escape]
      dsimp only
      rw [stripLit_append]
      dsimp only
      rw [parseJString_escape]
      dsimp only
      rw [stripLit_append]
      dsimp only
      unfold parseUrlVal
      rw [stripLit_append]
      dsimp only
      rw [stripLit_append]
      dsimp only
      rw [parseJString_escape]
      dsimp only
      rw [stripLit_append]
      dsimp only
      rfl
  | some u =>
    cases date with
    | none =>
      have hsplit : dumpPosting ⟨site, title, some u, none⟩ ++ rest
          = "\x7b\n    \"site\": \"".toList
            ++ (escapeStr site.toList ++ '"' ::
              (",\n    \"title\": \"".toList
                ++ (escapeStr title.toList ++ '"' ::
                  (",\n    \"url\": ".toList
                    ++ ('"' :: (escapeStr u.toList ++ '"' ::
                      ("\n  \x7d".toList ++ rest))))))) := by
        rw [lit_site_split, lit_title_split]
        simp [dumpPosting, jstr, List.append_assoc]
      rw [hsplit]
      unfold parsePosting
      rw [stripLit_append]
      dsimp only
      rw [parseJString_escape]
      dsimp only
      rw [stripLit_append]
      dsimp only
      rw [parseJString_escape]
      dsimp only
      rw [stripLit_append]
      dsimp only
      unfold parseUrlVal
      have hnull : stripLit "null".toList
          ('"' :: (escapeStr u.toList ++ '"' :: ("\n  \x7d".toList ++ rest))) = none := by rfl
      rw [hnull]
      dsimp only
      rw [if_pos rfl, parseJString_escape]
      simp only [Option.map_some']
      have hdate : stripLit ",\n    \"date\": \"".toList ("\n  \x7d".toList ++ rest)
          = none := by rfl
      rw [hdate]
      dsimp only
      rw [stripLit_append]
      dsimp only
      rfl
    | some d =>
      have hsplit : dumpPosting ⟨site, title, some u, some d⟩ ++ rest
          = "\x7b\n    \"site\": \"".toList
            ++ (escapeStr site.toList ++ '"' ::
              (",\n    \"title\": \"".toList
                ++ (escapeStr title.toList ++ '"' ::
                  (",\n    \"url\": ".toList
                    ++ ('"' :: (escapeStr u.toList ++ '"' ::
                      (",\n    \"date\": \"".toList
                        ++ (escapeStr d.toList ++ '"' ::
                          ("\n  \x7d".toList ++ rest))))))))) := by
        rw [lit_site_split, lit_title_split, lit_date_split]
        simp [dumpPosting, jstr, List.append_assoc]
      rw [hsplit]
      unfold parsePosting
      rw [stripLit_append]
      dsimp only
      rw [parseJString_escape]
      dsimp only
      rw [stripLit_append]
      dsimp only
      rw [parseJString_escape]
      dsimp only
      rw [stripLit_append]
      dsimp only
      unfold parseUrlVal
      have hnull : stripLit "null".toList
          ('"' :: (escapeStr u.toList ++ '"' ::
            (",\n    \"date\": \"".toList
              ++ (escapeStr d.toList ++ '"' :: ("\n  \x7d".toList ++ rest))))) = none := by rfl
      rw [hnull]
      dsimp only
      rw [if_pos rfl, parseJString_escape]
      simp only [Option.map_some']
      rw [stripLit_append]
      dsimp only
      rw [parseJString_escape]
      dsimp only
      rw [stripLit_append]
      dsimp only
      rfl

/-- The dumped item sequence of a nonempty listing store, followed by the
closing bracket, parses back to the store. -/
theorem parseItems_dump :
    ∀ (l : List Posting), l ≠ [] → parseItems (dumpItems l ++ "\n]".toList) = some l := by
  intro l
  induction l with
  | nil => intro h; exact absurd rfl h
  | cons p ps ih =>
    intro _
    cases ps with
    | nil =>
      have hd : dumpItems [p] = dumpPosting p := rfl
      rw [hd, parseItems.eq_def, parsePosting_dump]
      dsimp only
      have h1 : stripLit ",\n  ".toList "\n]".toList = none := by rfl
      rw [h1]
      dsimp only
      have h2 : stripLit "\n]".toList "\n]".toList = some [] := by rfl
      rw [h2]
    | cons q qs =>
      have hd : dumpItems (p :: q :: qs)
          = dumpPosting p ++ ",\n  ".toList ++ dumpItems (q :: qs) := rfl
      rw [hd]
      simp only [List.append_assoc]
      rw [parseItems.eq_def, parsePosting_dump]
      dsimp only
      rw [stripLit_append]
      dsimp only
      rw [ih (List.cons_ne_nil q qs)]
      rfl

/-- Reloading the exact content save_listings writes recovers the listing
sequence. -/
theorem parseListings_save (l : List Posting) :
    parseListings (save_listings l) = some l := by
  cases l with
  | nil => rfl
  | cons p ps =>
    unfold save_listings parseListings
    dsimp only [String.toList]
    rw [if_neg (show ¬ (['[', '\n', ' ', ' '] ++ dumpItems (p :: ps) ++ ['\n', ']']
      = ['[', ']']) by simp)]
    simp only [List.append_assoc]
    rw [stripLit_append]
    exact parseItems_dump (p :: ps) (List.cons_ne_nil p ps)

/-! ## Claim theorems -/

/-- C1: two postings are treated as the same posting by every pipeline
operation (deduplication and change detection) precisely when their
(site, title, url) tuples are equal by exact value equality, and changing
any one of the three fields yields a distinct identity.  Stated as: the
key agrees with the field tuple; membership in the change-detector output
depends only on presence in current and key absence from the existing
keys; deduplication preserves exactly the set of keys; and a difference
in any field separates the keys. -/
theorem claim_C1_identity_key :
    (∀ a b : Posting, jobKey a = jobKey b
        ↔ a.site = b.site ∧ a.title = b.title ∧ a.url = b.url)
    ∧ (∀ (current existing : List Posting) (j : Posting),
        j ∈ find_new_listings current existing
          ↔ j ∈ current ∧ jobKey j ∉ existing.map jobKey)
    ∧ (∀ (jobs : List Posting) (k : JobKey),
        k ∈ (dedupe_jobs jobs).map jobKey ↔ k ∈ jobs.map jobKey)
    ∧ (∀ a b : Posting,
        a.site ≠ b.site ∨ a.title ≠ b.title ∨ a.url ≠ b.url → jobKey a ≠ jobKey b) := by
  have hkey : ∀ a b : Posting, jobKey a = jobKey b
      ↔ a.site = b.site ∧ a.title = b.title ∧ a.url = b.url := by
    intro a b
    unfold jobKey
    simp [Prod.ext_iff]
  refine ⟨hkey, ?_, ?_, ?_⟩
  · intro current existing j
    rw [find_new_eq_filter]
    simp [List.mem_filter]
  · intro jobs k
    rw [dedupe_jobs_eq_aux, dedupeAux_mem_keys]
    simp
  · intro a b hne hk
    rcases (hkey a b).mp hk with ⟨h1, h2, h3⟩
    rcases hne with h | h | h
    · exact h h1
    · exact h h2
    · exact h h3

/-- Witness for C1 at concrete postings: a case change in the title alone
separates the identities. -/
theorem claim_C1_identity_key_witness :
    jobKey ⟨"Acme", "SWE Intern", some "https://a/1", none⟩
      ≠ jobKey ⟨"Acme", "SWE intern", some "https://a/1", none⟩ :=
  claim_C1_identity_key.2.2.2
    ⟨"Acme", "SWE Intern", some "https://a/1", none⟩
    ⟨"Acme", "SWE intern", some "https://a/1", none⟩
    (Or.inr (Or.inl (by decide)))

/-- C2 counterexample: as stated, the claim ends with the clause that
diff(current, []) equals current after internal de-duplication; for a
current batch holding the same posting twice, find_new_listings against an
empty store returns the batch unchanged, which differs from its
de-duplication. -/
theorem claim_C2_counterexample :
    ¬ (find_new_listings
          [⟨"A", "T", none, none⟩, ⟨"A", "T", none, none⟩] []
        = dedupe_jobs [⟨"A", "T", none, none⟩, ⟨"A", "T", none, none⟩]) := by
  decide

/-- C2 (amended): diff returns exactly the members of current whose
identity key is absent from the identity-key set of existing, preserving
the order of current; diff(current, current) is empty; and diff(current, [])
equals current itself — diff performs no internal de-duplication, so it
equals the de-duplicated current exactly when current is already
de-duplicated, as it is in the pipeline. -/
theorem claim_C2_diff :
    (∀ current existing : List Posting,
      find_new_listings current existing
        = current.filter (fun j => decide (jobKey j ∉ existing.map jobKey)))
    ∧ (∀ current existing : List Posting,
        List.Sublist (find_new_listings current existing) current)
    ∧ (∀ current : List Posting, find_new_listings current current = [])
    ∧ (∀ current : List Posting, find_new_listings current [] = current)
    ∧ (∀ current : List Posting,
        find_new_listings (dedupe_jobs current) [] = dedupe_jobs current) := by
  have hfil := find_new_eq_filter
  have hnil : ∀ current : List Posting, find_new_listings current [] = current := by
    intro current
    rw [hfil]
    apply List.filter_eq_self.mpr
    intro a _
    simp
  refine ⟨hfil, ?_, ?_, hnil, ?_⟩
  · intro current existing
    rw [hfil]
    exact List.filter_sublist current
  · intro current
    rw [hfil]
    apply List.filter_eq_nil_iff.mpr
    intro a ha
    simp only [decide_eq_true_eq, Decidable.not_not]
    exact List.mem_map_of_mem jobKey ha
  · intro current
    exact hnil (dedupe_jobs current)

/-- C3: dedupe_jobs returns the input with later identity-key duplicates
removed: it equals the remove-later-duplicates function written from the
specification text, its output has pairwise distinct identity keys, it is
a sublist of the input (first-occurrence order preserved), and it keeps
exactly the keys of the input. -/
theorem claim_C3_dedupe :
    (∀ jobs : List Posting, dedupe_jobs jobs = removeLaterDuplicates jobs)
    ∧ (∀ jobs : List Posting, ((dedupe_jobs jobs).map jobKey).Nodup)
    ∧ (∀ jobs : List Posting, List.Sublist (dedupe_jobs jobs) jobs)
    ∧ (∀ (jobs : List Posting) (k : JobKey),
        k ∈ (dedupe_jobs jobs).map jobKey ↔ k ∈ jobs.map jobKey) := by
  refine ⟨?_, ?_, ?_, ?_⟩
  · intro jobs
    rw [dedupe_jobs_eq_aux, dedupeAux_eq_removeLater]
    congr 1
    apply List.filter_eq_self.mpr
    intro a _
    simp
  · intro jobs
    rw [dedupe_jobs_eq_aux]
    exact (dedupeAux_nodup jobs []).1
  · intro jobs
    rw [dedupe_jobs_eq_aux]
    exact dedupeAux_sublist jobs []
  · intro jobs k
    rw [dedupe_jobs_eq_aux, dedupeAux_mem_keys]
    simp

/-- The stamped date string is never empty. -/
theorem isoformat_ne_empty (d : PyDate) : isoformat d ≠ "" := by
  intro h
  have hc := congrArg String.toList h
  simp [isoformat, pad4, pad2] at hc

/-- A freshly stamped listing always passes the retention decision. -/
theorem keepListing_stamp (today : PyDate) (days : Nat) (j : Posting)
    (hT : today.valid = true) :
    keepListing today days (stampDate today j) = true := by
  unfold keepListing stampDate
  dsimp only
  rw [if_neg (isoformat_ne_empty today)]
  rw [fromisoformat_isoformat today hT]
  simp only [decide_eq_true_eq]
  omega

/-- C4: the store update stamps each new listing with the current date,
concatenates with the existing store, and drops exactly the entries whose
date field is present, parses, and is strictly older than today minus
retention_days; every existing entry passing the retention decision and
every stamped new entry is retained, and entries with no date are never
pruned.  The hypothesis is that the ambient current date is a valid
calendar date, which date.today() always returns. -/
theorem claim_C4_merge_and_prune (newL existing : List Posting) (today : PyDate)
    (retention_days : Nat) (hT : today.valid = true) :
    merge_and_prune newL existing today retention_days
      = (newL.map (stampDate today) ++ existing).filter (keepListing today retention_days)
    ∧ (∀ l : Posting, keepListing today retention_days l = false
        ↔ ∃ s d, l.date = some s ∧ s ≠ "" ∧ date_fromisoformat s = some d
            ∧ toOrdinal d < toOrdinal today - (retention_days : Int))
    ∧ (∀ l ∈ existing, keepListing today retention_days l = true →
        l ∈ merge_and_prune newL existing today retention_days)
    ∧ (∀ j ∈ newL, stampDate today j ∈ merge_and_prune newL existing today retention_days)
    ∧ (∀ l ∈ newL.map (stampDate today) ++ existing, l.date = none →
        l ∈ merge_and_prune newL existing today retention_days) := by
  have h1 : merge_and_prune newL existing today retention_days
      = (newL.map (stampDate today) ++ existing).filter
          (keepListing today retention_days) := by
    unfold merge_and_prune
    exact prune_eq_filter _ _ _
  refine ⟨h1, ?_, ?_, ?_, ?_⟩
  · intro l
    constructor
    · intro hfalse
      unfold keepListing at hfalse
      cases hd : l.date with
      | none => simp [hd] at hfalse
      | some s =>
        simp only [hd] at hfalse
        by_cases hs : s = ""
        · simp [hs] at hfalse
        · simp only [if_neg hs] at hfalse
          cases hp : date_fromisoformat s with
          | none => simp [hp] at hfalse
          | some d =>
            simp only [hp] at hfalse
            refine ⟨s, d, rfl, hs, hp, ?_⟩
            simp only [decide_eq_false_iff_not, not_le] at hfalse
            omega
    · rintro ⟨s, d, hd, hs, hp, hlt⟩
      unfold keepListing
      rw [hd]
      simp only [if_neg hs, hp]
      simp only [decide_eq_false_iff_not, not_le]
      exact hlt
  · intro l hl hkeep
    rw [h1]
    exact List.mem_filter.mpr ⟨List.mem_append_right _ hl, hkeep⟩
  · intro j hj
    rw [h1]
    refine List.mem_filter.mpr ⟨List.mem_append_left _ (List.mem_map_of_mem _ hj), ?_⟩
    exact keepListing_stamp today retention_days j hT
  · intro l hl hd
    rw [h1]
    refine List.mem_filter.mpr ⟨hl, ?_⟩
    unfold keepListing
    rw [hd]

/-- Witness for C4: with the current date 2026-10-12 and the default
60-day retention, a stamped new listing is in the updated store, an
existing listing dated 2026-09-01 passes the retention decision and is
retained, and an existing listing with no date is retained. -/
theorem claim_C4_merge_and_prune_witness :
    stampDate ⟨2026, 10, 12⟩ ⟨"A", "SWE Intern", some "u", none⟩
      ∈ merge_and_prune [⟨"A", "SWE Intern", some "u", none⟩]
          [⟨"B", "T", none, some "2026-09-01"⟩, ⟨"C", "T", none, none⟩]
          ⟨2026, 10, 12⟩ 60
    ∧ ⟨"B", "T", none, some "2026-09-01"⟩
      ∈ merge_and_prune [⟨"A", "SWE Intern", some "u", none⟩]
          [⟨"B", "T", none, some "2026-09-01"⟩, ⟨"C", "T", none, none⟩]
          ⟨2026, 10, 12⟩ 60
    ∧ ⟨"C", "T", none, none⟩
      ∈ merge_and_prune [⟨"A", "SWE Intern", some "u", none⟩]
          [⟨"B", "T", none, some "2026-09-01"⟩, ⟨"C", "T", none, none⟩]
          ⟨2026, 10, 12⟩ 60 :=
  ⟨(claim_C4_merge_and_prune _ _ _ 60 (by decide)).2.2.2.1
      ⟨"A", "SWE Intern", some "u", none⟩ (by decide),
    (claim_C4_merge_and_prune _ _ _ 60 (by decide)).2.2.1
      ⟨"B", "T", none, some "2026-09-01"⟩ (by decide) (by decide),
    (claim_C4_merge_and_prune _ _ _ 60 (by decide)).2.2.2.2
      ⟨"C", "T", none, none⟩ (by decide) rfl⟩

/-- C10: a listing whose date field is present but does not parse as an
ISO date is retained by pruning for every ambient date and retention
window, exactly as a listing with no date is; the embedded
prune_old_listings is a total function, mirroring that the source catches
the only exception date.fromisoformat can raise there (ValueError). -/
theorem claim_C10_malformed_dates (listings : List Posting) (today : PyDate) (days : Nat) :
    ∀ l ∈ listings, ∀ s : String, l.date = some s → date_fromisoformat s = none →
      l ∈ prune_old_listings listings today days := by
  intro l hl s hd hp
  rw [prune_eq_filter]
  refine List.mem_filter.mpr ⟨hl, ?_⟩
  unfold keepListing
  rw [hd]
  by_cases hs : s = ""
  · simp [hs]
  · simp [hs, hp]

/-- Witness for C10: a listing dated with a non-parseable string survives
pruning at the 60-day default window. -/
theorem claim_C10_malformed_dates_witness :
    ⟨"A", "T", none, some "not-a-date"⟩
      ∈ prune_old_listings [⟨"A", "T", none, some "not-a-date"⟩] ⟨2026, 10, 12⟩ 60 :=
  claim_C10_malformed_dates [⟨"A", "T", none, some "not-a-date"⟩] ⟨2026, 10, 12⟩ 60
    ⟨"A", "T", none, some "not-a-date"⟩ (by decide) "not-a-date" rfl (by decide)

/-- C5: selector normalization returns None exactly on absent, empty or
whitespace-only tokens; a trimmed token holding a reserved character is
returned as the trimmed token itself; any other trimmed token is prefixed
with a period; and the concrete examples of the specification hold. -/
theorem claim_C5_normalize_selector :
    (∀ s : String, pyStrip s.toList = [] → normalize_selector (some s) = none)
    ∧ (∀ s : String, normalize_selector (some s) = none → pyStrip s.toList = [])
    ∧ (∀ s : String, pyStrip s.toList ≠ [] →
        (pyStrip s.toList).any (fun c => specialChars.contains c) = true →
        normalize_selector (some s) = some (String.mk (pyStrip s.toList)))
    ∧ (∀ s : String, pyStrip s.toList ≠ [] →
        (pyStrip s.toList).any (fun c => specialChars.contains c) = false →
        normalize_selector (some s) = some (String.mk ('.' :: pyStrip s.toList)))
    ∧ normalize_selector (some "posting") = some ".posting"
    ∧ normalize_selector (some "div.posting") = some "div.posting"
    ∧ normalize_selector (some "#list") = some "#list"
    ∧ normalize_selector (some "") = none
    ∧ normalize_selector none = none := by
  refine ⟨?_, ?_, ?_, ?_, by decide, by decide, by decide, by decide, rfl⟩
  · intro s hstrip
    unfold normalize_selector
    dsimp only
    by_cases hs : s = ""
    · rw [if_pos hs]
    · rw [if_neg hs, if_pos hstrip]
  · intro s h
    unfold normalize_selector at h
    dsimp only at h
    by_cases hs : s = ""
    · subst hs
      decide
    · rw [if_neg hs] at h
      by_cases ht : pyStrip s.toList = []
      · exact ht
      · rw [if_neg ht] at h
        split at h <;> exact absurd h (by simp)
  · intro s ht ha
    unfold normalize_selector
    dsimp only
    by_cases hs : s = ""
    · subst hs
      exact absurd rfl ht
    · rw [if_neg hs, if_neg ht, if_pos ha]
  · intro s ht ha
    unfold normalize_selector
    dsimp only
    by_cases hs : s = ""
    · subst hs
      exact absurd rfl ht
    · rw [if_neg hs, if_neg ht, if_neg (by rw [ha]; exact Bool.false_ne_true)]

/-- Witness for C5: a padded advanced token is returned trimmed, and a
padded bare token is trimmed and period-prefixed. -/
theorem claim_C5_normalize_selector_witness :
    normalize_selector (some " div.posting ") = some (String.mk (pyStrip " div.posting ".toList))
    ∧ normalize_selector (some " posting ") = some (String.mk ('.' :: pyStrip " posting ".toList)) :=
  ⟨claim_C5_normalize_selector.2.2.1 " div.posting " (by decide) (by decide),
    claim_C5_normalize_selector.2.2.2.1 " posting " (by decide) (by decide)⟩

/-- C6: a candidate with a nonempty extracted title is included exactly
when the lowercased title holds one of the substrings intern, grad, early,
or the owning site name is the empty string; an empty title is excluded
before the keyword test; the substring test has no word-boundary awareness
(an Internal Tools Engineer title matches), and the concrete examples of
the specification hold. -/
theorem claim_C6_relevance_filter :
    (∀ site_name title : String, title ≠ "" →
        (include_candidate site_name title = true
          ↔ (hasSub "intern".toList (pyLower title.toList) = true
              ∨ hasSub "grad".toList (pyLower title.toList) = true
              ∨ hasSub "early".toList (pyLower title.toList) = true
              ∨ site_name = "")))
    ∧ (∀ site_name : String, include_candidate site_name "" = false)
    ∧ include_candidate "Acme" "Software Engineering Intern" = true
    ∧ include_candidate "Acme" "Senior Staff Engineer" = false
    ∧ include_candidate "" "Chief Accountant" = true
    ∧ include_candidate "Acme" "Internal Tools Engineer" = true := by
  refine ⟨?_, ?_, by decide, by decide, by decide, by decide⟩
  · intro site_name title ht
    have hmap : ((pyLower site_name.toList).isEmpty = true) ↔ site_name = "" := by
      rw [List.isEmpty_iff]
      unfold pyLower
      constructor
      · intro h0
        have hnil : site_name.toList = [] := by
          cases hsl : site_name.toList with
          | nil => rfl
          | cons a as => rw [hsl] at h0; simp at h0
        obtain ⟨data⟩ := site_name
        simp only [String.toList] at hnil
        rw [hnil]
      · intro h0
        rw [h0]
        rfl
    unfold include_candidate
    rw [if_neg ht]
    simp only [Bool.or_eq_true]
    rw [hmap]
    tauto
  · intro site_name
    unfold include_candidate
    rw [if_pos rfl]

/-- Witness for C6: the permissive substring test includes an Internal
Tools Engineer title on a keyword site, by the inclusion criterion. -/
theorem claim_C6_relevance_filter_witness :
    include_candidate "SomeCo" "Internal Tools Engineer" = true :=
  (claim_C6_relevance_filter.1 "SomeCo" "Internal Tools Engineer" (by decide)).mpr
    (Or.inl (by decide))

/-- The notification call never lets an exception escape: every transport
outcome yields a Boolean result. -/
theorem send_pushover_total (hasReq : Bool) (tr : TransportResult) :
    ∃ b : Bool, send_pushover hasReq tr = Except.ok b := by
  cases hasReq with
  | false => exact ⟨false, rfl⟩
  | true =>
    cases tr with
    | postRaised d => exact ⟨false, rfl⟩
    | response ok valid body =>
      cases ok <;> cases valid <;>
        first
        | exact ⟨false, rfl⟩
        | exact ⟨true, rfl⟩

/-- C7: for every outcome of the notification transport (the post call
raising, a non-success response, a malformed response body) and also with
the requests library missing, send_pushover returns a Boolean instead of
raising, and the write phase performs the same store update regardless of
the transport outcome: the update is never blocked and never rolled
back. -/
theorem claim_C7_notifier_boundary :
    (∀ (hasReq : Bool) (tr : TransportResult),
        ∃ b : Bool, send_pushover hasReq tr = Except.ok b)
    ∧ (∀ (unique existing : List Posting) (today : PyDate)
          (hasReq : Bool) (tr : TransportResult),
        write_phase unique existing today hasReq tr
          = Except.ok (if (find_new_listings unique existing).isEmpty then none
              else some (merge_and_prune
                (find_new_listings unique existing) existing today 60))) := by
  refine ⟨send_pushover_total, ?_⟩
  intro unique existing today hasReq tr
  unfold write_phase
  dsimp only
  by_cases hnew : (find_new_listings unique existing).isEmpty
  · rw [if_pos hnew, if_pos hnew]
  · rw [if_neg hnew, if_neg hnew]
    obtain ⟨b, hb⟩ := send_pushover_total hasReq tr
    rw [hb]

/-- C8: loading the listing store returns the empty sequence when no
snapshot file exists, while content the snapshot reader rejects raises
json.JSONDecodeError out of load_listings: the run never continues with an
empty store in that case, and the uncaught exception gives the process a
non-zero exit code. -/
theorem claim_C8_load_errors :
    load_listings SnapshotFile.absent = Except.ok []
    ∧ (∀ c : String, parseListings c = none →
        load_listings (SnapshotFile.present c) = Except.error (PyExn.jsonDecodeError c)
        ∧ load_listings (SnapshotFile.present c) ≠ Except.ok []
        ∧ load_phase_exit_code (SnapshotFile.present c) ≠ 0) := by
  refine ⟨rfl, ?_⟩
  intro c hc
  have herr : load_listings (SnapshotFile.present c)
      = Except.error (PyExn.jsonDecodeError c) := by
    unfold load_listings
    dsimp only
    rw [hc]
  refine ⟨herr, ?_, ?_⟩
  · rw [herr]
    intro h
    exact absurd h (by simp)
  · unfold load_phase_exit_code
    rw [herr]
    dsimp only
    decide

/-- Witness for C8 at a concrete malformed snapshot. -/
theorem claim_C8_load_errors_witness :
    load_listings (SnapshotFile.present "corrupt")
        = Except.error (PyExn.jsonDecodeError "corrupt")
    ∧ load_listings (SnapshotFile.present "corrupt") ≠ Except.ok []
    ∧ load_phase_exit_code (SnapshotFile.present "corrupt") ≠ 0 :=
  claim_C8_load_errors.2 "corrupt" (by decide)

/-- C9: reloading a snapshot written by save_listings recovers the exact
listing sequence, and re-saving the reloaded sequence reproduces the disk
content byte for byte, with field order and field presence preserved. -/
theorem claim_C9_round_trip :
    ∀ l : List Posting,
      load_listings (SnapshotFile.present (save_listings l)) = Except.ok l
      ∧ Except.map save_listings (load_listings (SnapshotFile.present (save_listings l)))
          = Except.ok (save_listings l) := by
  intro l
  have h1 : load_listings (SnapshotFile.present (save_listings l)) = Except.ok l := by
    unfold load_listings
    dsimp only
    rw [parseListings_save l]
  refine ⟨h1, ?_⟩
  rw [h1]
  rfl
